import Mathlib

set_option maxRecDepth 100000
set_option maxHeartbeats 2000000

/-!
# Verification of the fsdbg CPIO decoder core

This file is a shallow embedding, in Lean 4, of the CPIO archive decoder of
the `fsdbg` repository (`src/cpio.rs` and `src/error.rs`), together with
theorems settling the frozen specification claims about it.

Modelling conventions:

* The input byte stream is a `List Nat` of byte values (each `< 256`); the
  decoder only ever reads from an in-memory buffered stream, so the only
  I/O failure the model produces is `unexpectedEof` (Rust
  `std::io::ErrorKind::UnexpectedEof`, the error `Read::read_exact` returns
  on a short read).
* Rust `String` values are represented by their UTF-8 byte sequences
  (`List Nat`).  Every string operation the source performs on paths
  (`trim_start_matches`, `starts_with('/')`, `split('/')`, `join`,
  comparison with `"TRAILER!!!"`) acts on ASCII characters and is
  byte-for-byte transparent under UTF-8, so the byte-level definitions
  coincide with the Rust character-level ones.
* Error messages are abstracted to their construction site (an inductive
  `ErrMsg` recording which `format!` produced the message and its payload);
  the error *codes* are modelled exactly.
-/

namespace Fsdbg

/-- Error codes of `src/error.rs` (`enum ErrorCode`). -/
inductive ErrorCode where
  | FileNotFound
  | InvalidFormat
  | SymlinkBroken
  | MissingRequired
  | IoError
  | ExternalToolFailed
  | ParseError
  | VerificationFailed
  | UnsupportedFormat
  | InvalidArgument
  deriving DecidableEq, Repr

/-- The only `std::io::ErrorKind` a short read of an in-memory byte stream
produces (`read_exact` on exhausted input). -/
inductive IoErrorKind where
  | unexpectedEof
  deriving DecidableEq, Repr

/-- Abstraction of the human-readable `message: String` of `FsdbgError`:
each constructor stands for one message-construction site in `cpio.rs` /
`error.rs`, with its formatted payload. -/
inductive ErrMsg where
  /-- "Invalid CPIO header: not UTF-8" -/
  | headerNotUtf8
  /-- "Invalid CPIO magic: expected 070701/070702, got {magic}" -/
  | badMagic (magic : List Nat)
  /-- "Invalid hex field" (header field bytes are not UTF-8) -/
  | hexNotUtf8
  /-- "Invalid hex: {s}" (header field is not parseable hexadecimal) -/
  | badHex (s : List Nat)
  /-- message produced by `impl From<std::io::Error> for FsdbgError`
  (`err.to_string()`); the io error kind is retained as the payload -/
  | ioMsg (kind : IoErrorKind)
  /-- unreachable fuel-exhaustion marker of the Lean model (never produced
  for the fuel `parse_cpio` supplies; see `parseLoop_fuel` reasoning in the
  theorems below) -/
  | outOfFuel
  deriving DecidableEq, Repr

/-- `struct FsdbgError` of `src/error.rs` (message abstracted, code exact). -/
structure FsdbgError where
  code : ErrorCode
  message : ErrMsg
  deriving DecidableEq, Repr

/-- `FsdbgError::invalid_format` of `src/error.rs`. -/
def FsdbgError.invalid_format (m : ErrMsg) : FsdbgError :=
  ⟨ErrorCode.InvalidFormat, m⟩

/-- `impl From<std::io::Error> for FsdbgError` of `src/error.rs`:
every io error becomes code `IoError` with the io error's message. -/
def FsdbgError.fromIo (k : IoErrorKind) : FsdbgError :=
  ⟨ErrorCode.IoError, ErrMsg.ioMsg k⟩

/-- `enum FileType` of `src/cpio.rs`. -/
inductive FileType where
  | Regular
  | Directory
  | Symlink
  | CharDevice
  | BlockDevice
  | Fifo
  | Socket
  | Unknown
  deriving DecidableEq, Repr

/-- `FileType::from_mode` of `src/cpio.rs`:
the type is the high nibble `mode & 0o170000`. -/
def FileType.from_mode (mode : Nat) : FileType :=
  match mode &&& 0o170000 with
  | 0o100000 => FileType.Regular
  | 0o040000 => FileType.Directory
  | 0o120000 => FileType.Symlink
  | 0o020000 => FileType.CharDevice
  | 0o060000 => FileType.BlockDevice
  | 0o010000 => FileType.Fifo
  | 0o140000 => FileType.Socket
  | _ => FileType.Unknown

/-- `struct CpioEntry` of `src/cpio.rs`; string fields are UTF-8 byte
sequences. -/
structure CpioEntry where
  path : List Nat
  size : Nat
  mode : Nat
  file_type : FileType
  link_target : Option (List Nat)
  uid : Nat
  gid : Nat
  nlink : Nat
  mtime : Nat
  dev_major : Nat
  dev_minor : Nat
  rdev_major : Nat
  rdev_minor : Nat
  deriving DecidableEq, Repr

/-- `struct CpioReader` of `src/cpio.rs`.  The `HashMap<String, usize>` is
modelled as an association list with overwriting insert (`insertAssoc`). -/
structure CpioReader where
  entries : List CpioEntry
  entry_map : List (List Nat × Nat)
  deriving DecidableEq, Repr

/-- `HashMap::insert` model: overwrite any existing binding of `k`. -/
def insertAssoc (m : List (List Nat × Nat)) (k : List Nat) (v : Nat) :
    List (List Nat × Nat) :=
  m.filter (fun p => decide (p.1 ≠ k)) ++ [(k, v)]

/-- `HashMap::get` model. -/
def lookupAssoc (m : List (List Nat × Nat)) (k : List Nat) : Option Nat :=
  (m.find? (fun p => decide (p.1 = k))).map Prod.snd

/-- The bytes of an ASCII string literal (used to denote concrete paths,
targets and magics; every string it is applied to in this file is ASCII,
for which `Char.toNat` is exactly the UTF-8 byte). -/
def ascii (s : String) : List Nat :=
  s.data.map Char.toNat

/-- Two-byte UTF-8 lead bytes. -/
def lead2 (b : Nat) : Bool := 0xC2 ≤ b ∧ b ≤ 0xDF

/-- Three-byte UTF-8 lead bytes. -/
def lead3 (b : Nat) : Bool := 0xE0 ≤ b ∧ b ≤ 0xEF

/-- Four-byte UTF-8 lead bytes. -/
def lead4 (b : Nat) : Bool := 0xF0 ≤ b ∧ b ≤ 0xF4

/-- Lower bound for the first continuation byte after lead `b` (the E0/F0
overlong exclusions). -/
def c1lo (b : Nat) : Nat :=
  if b = 0xE0 then 0xA0 else if b = 0xF0 then 0x90 else 0x80

/-- Upper bound for the first continuation byte after lead `b` (the ED
surrogate and F4 range exclusions). -/
def c1hi (b : Nat) : Nat :=
  if b = 0xED then 0x9F else if b = 0xF4 then 0x8F else 0xBF

/-- Byte-driven automaton for strict UTF-8 validity: `pending` is the
number of continuation bytes still expected, `lo`/`hi` the admissible range
of the next continuation byte. -/
def validUtf8Aux : List Nat → Nat → Nat → Nat → Bool
  | [], 0, _, _ => true
  | [], _ + 1, _, _ => false
  | b :: rest, 0, _, _ =>
    if b < 0x80 then validUtf8Aux rest 0 0 0
    else if lead2 b then validUtf8Aux rest 1 0x80 0xBF
    else if lead3 b then validUtf8Aux rest 2 (c1lo b) (c1hi b)
    else if lead4 b then validUtf8Aux rest 3 (c1lo b) (c1hi b)
    else false
  | b :: rest, pending + 1, lo, hi =>
    if lo ≤ b ∧ b ≤ hi then validUtf8Aux rest pending 0x80 0xBF else false

/-- Strict UTF-8 validity of a byte sequence (the check performed by
`std::str::from_utf8`). -/
def validUtf8 (l : List Nat) : Bool :=
  validUtf8Aux l 0 0 0

/-- One step of the U+FFFD-substitution ("maximal subpart") scan performed
by `String::from_utf8_lossy`: the length of the valid UTF-8 sequence at the
front, or `none` when the front is ill-formed. -/
def utf8SeqLen : List Nat → Option Nat
  | [] => none
  | b :: rest =>
    if b < 0x80 then some 1
    else if 0xC2 ≤ b ∧ b ≤ 0xDF then
      match rest with
      | c1 :: _ => if 0x80 ≤ c1 ∧ c1 ≤ 0xBF then some 2 else none
      | _ => none
    else if b = 0xE0 then
      match rest with
      | c1 :: c2 :: _ =>
        if 0xA0 ≤ c1 ∧ c1 ≤ 0xBF then
          if 0x80 ≤ c2 ∧ c2 ≤ 0xBF then some 3 else none
        else none
      | [c1] => if 0xA0 ≤ c1 ∧ c1 ≤ 0xBF then none else none
      | _ => none
    else if (0xE1 ≤ b ∧ b ≤ 0xEC) ∨ b = 0xEE ∨ b = 0xEF then
      match rest with
      | c1 :: c2 :: _ =>
        if 0x80 ≤ c1 ∧ c1 ≤ 0xBF then
          if 0x80 ≤ c2 ∧ c2 ≤ 0xBF then some 3 else none
        else none
      | _ => none
    else if b = 0xED then
      match rest with
      | c1 :: c2 :: _ =>
        if 0x80 ≤ c1 ∧ c1 ≤ 0x9F then
          if 0x80 ≤ c2 ∧ c2 ≤ 0xBF then some 3 else none
        else none
      | _ => none
    else if b = 0xF0 then
      match rest with
      | c1 :: c2 :: c3 :: _ =>
        if 0x90 ≤ c1 ∧ c1 ≤ 0xBF then
          if 0x80 ≤ c2 ∧ c2 ≤ 0xBF then
            if 0x80 ≤ c3 ∧ c3 ≤ 0xBF then some 4 else none
          else none
        else none
      | _ => none
    else if 0xF1 ≤ b ∧ b ≤ 0xF3 then
      match rest with
      | c1 :: c2 :: c3 :: _ =>
        if 0x80 ≤ c1 ∧ c1 ≤ 0xBF then
          if 0x80 ≤ c2 ∧ c2 ≤ 0xBF then
            if 0x80 ≤ c3 ∧ c3 ≤ 0xBF then some 4 else none
          else none
        else none
      | _ => none
    else if b = 0xF4 then
      match rest with
      | c1 :: c2 :: c3 :: _ =>
        if 0x80 ≤ c1 ∧ c1 ≤ 0x8F then
          if 0x80 ≤ c2 ∧ c2 ≤ 0xBF then
            if 0x80 ≤ c3 ∧ c3 ≤ 0xBF then some 4 else none
          else none
        else none
      | _ => none
    else none

/-- Length of the "maximal subpart" consumed for one replacement character
when the front of the byte sequence is ill-formed: the longest prefix that
is a prefix of some well-formed sequence (at least one byte). -/
def maximalSubpartLen (l : List Nat) : Nat :=
  match l with
  | [] => 1
  | b :: rest =>
    if 0xC2 ≤ b ∧ b ≤ 0xDF then 1
    else if b = 0xE0 then
      match rest with
      | c1 :: _ => if 0xA0 ≤ c1 ∧ c1 ≤ 0xBF then 2 else 1
      | _ => 1
    else if (0xE1 ≤ b ∧ b ≤ 0xEC) ∨ b = 0xEE ∨ b = 0xEF then
      match rest with
      | c1 :: _ => if 0x80 ≤ c1 ∧ c1 ≤ 0xBF then 2 else 1
      | _ => 1
    else if b = 0xED then
      match rest with
      | c1 :: _ => if 0x80 ≤ c1 ∧ c1 ≤ 0x9F then 2 else 1
      | _ => 1
    else if b = 0xF0 then
      match rest with
      | c1 :: c2 :: _ =>
        if 0x90 ≤ c1 ∧ c1 ≤ 0xBF then
          if 0x80 ≤ c2 ∧ c2 ≤ 0xBF then 3 else 2
        else 1
      | [c1] => if 0x90 ≤ c1 ∧ c1 ≤ 0xBF then 2 else 1
      | _ => 1
    else if 0xF1 ≤ b ∧ b ≤ 0xF3 then
      match rest with
      | c1 :: c2 :: _ =>
        if 0x80 ≤ c1 ∧ c1 ≤ 0xBF then
          if 0x80 ≤ c2 ∧ c2 ≤ 0xBF then 3 else 2
        else 1
      | [c1] => if 0x80 ≤ c1 ∧ c1 ≤ 0xBF then 2 else 1
      | _ => 1
    else if b = 0xF4 then
      match rest with
      | c1 :: c2 :: _ =>
        if 0x80 ≤ c1 ∧ c1 ≤ 0x8F then
          if 0x80 ≤ c2 ∧ c2 ≤ 0xBF then 3 else 2
        else 1
      | [c1] => if 0x80 ≤ c1 ∧ c1 ≤ 0x8F then 2 else 1
      | _ => 1
    else 1

/-- The U+FFFD replacement character, as UTF-8 bytes. -/
def replacementBytes : List Nat := [0xEF, 0xBF, 0xBD]

/-- Byte-level model of `String::from_utf8_lossy(..).to_string()` composed
with re-encoding: well-formed sequences are copied, each maximal ill-formed
subpart becomes U+FFFD.  On valid UTF-8 input it is the identity (see
`lossy_valid`). -/
def lossyRepair (l : List Nat) (fuel : Nat) : List Nat :=
  match fuel with
  | 0 => []
  | fuel + 1 =>
    match l with
    | [] => []
    | l =>
      match utf8SeqLen l with
      | some n => l.take n ++ lossyRepair (l.drop n) fuel
      | none => replacementBytes ++ lossyRepair (l.drop (maximalSubpartLen l)) fuel

/-- `String::from_utf8_lossy(bytes).to_string()` at byte level. -/
def lossy (l : List Nat) : List Nat :=
  if validUtf8 l then l else lossyRepair l l.length

theorem lossy_valid {l : List Nat} (h : validUtf8 l = true) : lossy l = l := by
  simp [lossy, h]

/-- The padding the decoder computes after the name and after the content:
`(4 - (len % 4)) % 4` (`src/cpio.rs`, the `padding` and `content_padding`
computations in `parse_cpio`). -/
def pad4 (len : Nat) : Nat :=
  (4 - len % 4) % 4

/-- `List.replicate n 0`, the padding bytes of a well-formed record. -/
def zeros (n : Nat) : List Nat := List.replicate n 0

/-- Is the byte an ASCII hexadecimal digit (`char::is_digit(16)` domain used
by `u32::from_str_radix(s, 16)`)? -/
def isHexDigitByte (b : Nat) : Bool :=
  (48 ≤ b ∧ b ≤ 57) ∨ (97 ≤ b ∧ b ≤ 102) ∨ (65 ≤ b ∧ b ≤ 70)

/-- Value of an ASCII hexadecimal digit byte. -/
def hexVal (b : Nat) : Nat :=
  if 48 ≤ b ∧ b ≤ 57 then b - 48
  else if 97 ≤ b ∧ b ≤ 102 then b - 87
  else if 65 ≤ b ∧ b ≤ 70 then b - 55
  else 0

/-- `u32::from_str_radix(s, 16)` on the bytes of `s`: an optional sign
(`+`, or `-` accepted only when every digit is zero, matching Rust's
checked-arithmetic behaviour for unsigned targets), then one or more hex
digits, value below `2^32`. -/
def fromStrRadix16 (s : List Nat) : Option Nat :=
  match s with
  | [] => none
  | b :: rest =>
    if b = 43 then -- '+'
      if rest ≠ [] ∧ rest.all isHexDigitByte then
        let v := rest.foldl (fun a d => a * 16 + hexVal d) 0
        if v < 2 ^ 32 then some v else none
      else none
    else if b = 45 then -- '-'
      if rest ≠ [] ∧ rest.all isHexDigitByte ∧ rest.all (fun d => hexVal d = 0)
      then some 0 else none
    else
      if (b :: rest).all isHexDigitByte then
        let v := (b :: rest).foldl (fun a d => a * 16 + hexVal d) 0
        if v < 2 ^ 32 then some v else none
      else none

/-- The `parse_hex` closure of `CpioReader::parse_cpio`:
`str::from_utf8` then `u32::from_str_radix(s, 16)`, each failure mapped to
`InvalidFormat`. -/
def parseHex (s : List Nat) : Except FsdbgError Nat :=
  if validUtf8 s then
    match fromStrRadix16 s with
    | some v => Except.ok v
    | none => Except.error (FsdbgError.invalid_format (ErrMsg.badHex s))
  else Except.error (FsdbgError.invalid_format ErrMsg.hexNotUtf8)

/-- The eleven numeric header fields `parse_cpio` extracts (in source
order); `ino` (bytes 6..14) and `check` (bytes 102..110) are never parsed
by the source and are not represented. -/
structure HeaderFields where
  mode : Nat
  uid : Nat
  gid : Nat
  nlink : Nat
  mtime : Nat
  filesize : Nat
  dev_major : Nat
  dev_minor : Nat
  rdev_major : Nat
  rdev_minor : Nat
  namesize : Nat
  deriving DecidableEq, Repr

/-- The header-field extraction block of `CpioReader::parse_cpio`
(`let mode = parse_hex(&header[14..22])?; ...`), in source order. -/
def parseHeaderFields (header : List Nat) : Except FsdbgError HeaderFields := do
  let mode ← parseHex ((header.drop 14).take 8)
  let uid ← parseHex ((header.drop 22).take 8)
  let gid ← parseHex ((header.drop 30).take 8)
  let nlink ← parseHex ((header.drop 38).take 8)
  let mtime ← parseHex ((header.drop 46).take 8)
  let filesize ← parseHex ((header.drop 54).take 8)
  let dev_major ← parseHex ((header.drop 62).take 8)
  let dev_minor ← parseHex ((header.drop 70).take 8)
  let rdev_major ← parseHex ((header.drop 78).take 8)
  let rdev_minor ← parseHex ((header.drop 86).take 8)
  let namesize ← parseHex ((header.drop 94).take 8)
  pure ⟨mode, uid, gid, nlink, mtime, filesize, dev_major, dev_minor,
        rdev_major, rdev_minor, namesize⟩

/-- Bytes of the magic `"070701"`. -/
def magicA : List Nat := [48, 55, 48, 55, 48, 49]

/-- Bytes of the magic `"070702"`. -/
def magicB : List Nat := [48, 55, 48, 55, 48, 50]

/-- Bytes of the trailer sentinel name `"TRAILER!!!"`. -/
def trailerBytes : List Nat := [84, 82, 65, 73, 76, 69, 82, 33, 33, 33]

/-- `CpioReader::normalize_path` at byte level:
`path.trim_start_matches("./").trim_start_matches('/')`.
Rust `trim_start_matches(pat)` strips the pattern *repeatedly* from the
front, so first every leading `"./"` occurrence is removed, then every
leading `'/'`. -/
def trimDotSlash : List Nat → List Nat
  | [] => []
  | [a] => [a]
  | a :: b :: rest =>
    if a = 46 ∧ b = 47 then trimDotSlash rest else a :: b :: rest

/-- `CpioReader::normalize_path` of `src/cpio.rs`. -/
def normalize_path (p : List Nat) : List Nat :=
  (trimDotSlash p).dropWhile (fun b => decide (b = 47))

/-- The entry `parse_cpio` assembles from one decoded record (the
`file_type` / `link_target` computation and the `CpioEntry { .. }`
construction of `src/cpio.rs`). -/
def mkParsedEntry (name : List Nat) (flds : HeaderFields)
    (content : List Nat) : CpioEntry :=
  ⟨name, flds.filesize, flds.mode, FileType.from_mode flds.mode,
   (if FileType.from_mode flds.mode = FileType.Symlink then
     some (lossy content) else none),
   flds.uid, flds.gid, flds.nlink, flds.mtime, flds.dev_major,
   flds.dev_minor, flds.rdev_major, flds.rdev_minor⟩

/-- The `entry_map` update of `parse_cpio`: insert under the normalized
path unless it normalizes to the empty string. -/
def updMap (m : List (List Nat × Nat)) (name : List Nat) (i : Nat) :
    List (List Nat × Nat) :=
  if normalize_path name ≠ [] then insertAssoc m (normalize_path name) i
  else m

/-- The loop of `CpioReader::parse_cpio`, structurally recursive on an
explicit fuel so that it evaluates in the kernel.  `parse_cpio` supplies
`bs.length + 1` fuel; each iteration consumes at least 110 bytes, so the
`outOfFuel` branch is unreachable there (every theorem below about `.ok` or
`.error` results exhibits the actual branch taken). -/
def parseLoop : Nat → List Nat → List CpioEntry → List (List Nat × Nat) →
    Except FsdbgError CpioReader
  | 0, _, _, _ => Except.error ⟨ErrorCode.IoError, ErrMsg.outOfFuel⟩
  | fuel + 1, bs, entries, entry_map =>
    -- read_exact of the 110-byte header: UnexpectedEof (any short read,
    -- 0..109 bytes left) breaks the loop and returns the index built so far
    if bs.length < 110 then Except.ok ⟨entries, entry_map⟩
    else
      let header := bs.take 110
      let rest0 := bs.drop 110
      -- str::from_utf8(&header[0..6])
      if validUtf8 (header.take 6) then
        if header.take 6 ≠ magicA ∧ header.take 6 ≠ magicB then
          Except.error (FsdbgError.invalid_format (ErrMsg.badMagic (header.take 6)))
        else
          match parseHeaderFields header with
          | Except.error e => Except.error e
          | Except.ok f =>
            -- read_exact of the name
            if rest0.length < f.namesize then
              Except.error (FsdbgError.fromIo IoErrorKind.unexpectedEof)
            else
              let name_buf := rest0.take f.namesize
              let rest1 := rest0.drop f.namesize
              let name := lossy (name_buf.take (f.namesize - 1))
              let padding := pad4 (110 + f.namesize)
              -- read_exact of the name padding (skipped when padding = 0)
              if rest1.length < padding then
                Except.error (FsdbgError.fromIo IoErrorKind.unexpectedEof)
              else
                let rest2 := rest1.drop padding
                if name = trailerBytes then Except.ok ⟨entries, entry_map⟩
                else
                  -- read_exact of the content
                  if rest2.length < f.filesize then
                    Except.error (FsdbgError.fromIo IoErrorKind.unexpectedEof)
                  else
                    let content := rest2.take f.filesize
                    let rest3 := rest2.drop f.filesize
                    let content_padding := pad4 f.filesize
                    if rest3.length < content_padding then
                      Except.error (FsdbgError.fromIo IoErrorKind.unexpectedEof)
                    else
                      let rest4 := rest3.drop content_padding
                      let entry := mkParsedEntry name f content
                      let entry_map' := updMap entry_map name entries.length
                      parseLoop fuel rest4 (entries ++ [entry]) entry_map'
      else Except.error (FsdbgError.invalid_format ErrMsg.headerNotUtf8)

/-- `CpioReader::parse_cpio` of `src/cpio.rs`, over an in-memory byte
stream. -/
def parse_cpio (bs : List Nat) : Except FsdbgError CpioReader :=
  parseLoop (bs.length + 1) bs [] []

/-- `CpioReader::exists` of `src/cpio.rs`. -/
def existsPath (r : CpioReader) (p : List Nat) : Bool :=
  (lookupAssoc r.entry_map (normalize_path p)).isSome

/-- Rust `str::split('/')` at byte level: always at least one piece; every
`'/'` separates two pieces. -/
def splitSlash : List Nat → List (List Nat)
  | [] => [[]]
  | b :: rest =>
    match splitSlash rest with
    | s :: ss => if b = 47 then [] :: s :: ss else (b :: s) :: ss
    | [] => [[b]]

/-- Rust `[&str]::join("/")` at byte level. -/
def joinSlash : List (List Nat) → List Nat
  | [] => []
  | [c] => c
  | c :: cs => c ++ 47 :: joinSlash cs

/-- Number of leading `'/'` bytes (the raw span of the `RootDir`
component in `std::path` component parsing on Unix). -/
def leadSlashes (p : List Nat) : Nat :=
  (p.takeWhile (fun b => decide (b = 47))).length

/-- `std::path` `include_cur_dir`: a leading `"."` counts as a `CurDir`
component only when the path has no root and starts with `"."` followed by
nothing or a separator. -/
def includeCurDir (p : List Nat) : Bool :=
  match p with
  | [46] => true
  | 46 :: 47 :: _ => true
  | _ => false

/-- Right-trimming of `std::path::Components`: working on the *reversed*
byte list, drop trailing separators and trailing `"."` components (which
the component parser filters out), never consuming the root span (`rl`
leading slashes) and never consuming a leading `CurDir` (`icd`). -/
def trimR (rl : Nat) (icd : Bool) : List Nat → List Nat
  | [] => []
  | b :: rest =>
    if rest.length + 1 ≤ rl then b :: rest
    else if b = 47 then trimR rl icd rest
    else if (decide (b = 46) && (match rest with
                                 | [] => !icd
                                 | c :: _ => decide (c = 47))) = true then
      trimR rl icd rest
    else b :: rest

/-- Model of `std::path::Path::parent` on Unix: drop the last component of
the normalized component sequence and return the raw remaining span (root
preserved, trailing separators and `"."` components trimmed); `none` when
there is no component or only the root remains. -/
def rustParent (p : List Nat) : Option (List Nat) :=
  let rl := leadSlashes p
  let icd := includeCurDir p
  let t := (trimR rl icd p.reverse).reverse
  if t.length ≤ rl then none
  else
    let comp := (t.reverse.takeWhile (fun b => decide (b ≠ 47))).reverse
    let r := t.take (t.length - comp.length)
    let r' := (trimR rl icd r.reverse).reverse
    some (if r'.length ≤ rl then p.take rl else r')

/-- One step of the component loop of `CpioReader::resolve_symlink_target`
(the `match part` inside the `for` loop): `"."` and `""` are skipped,
`".."` pops the last pushed component (`Vec::pop`, a no-op on an empty
vector), anything else is pushed. -/
def resolveStep (cs : List (List Nat)) (part : List Nat) : List (List Nat) :=
  if part = [46] ∨ part = [] then cs
  else if part = [46, 46] then cs.dropLast
  else cs ++ [part]

/-- `CpioReader::resolve_symlink_target` of `src/cpio.rs`. -/
def resolve_symlink_target (link_path target : List Nat) : List Nat :=
  if target.head? = some 47 then
    -- absolute symlink: target.trim_start_matches('/')
    target.dropWhile (fun b => decide (b = 47))
  else
    let link_dir := (rustParent link_path).getD []
    let components : List (List Nat) :=
      if link_dir = [] then [] else splitSlash link_dir
    joinSlash ((splitSlash target).foldl resolveStep components)

/-- `CpioReader::symlink_target_exists` of `src/cpio.rs`. -/
def symlink_target_exists (r : CpioReader) (e : CpioEntry) : Bool :=
  match e.link_target with
  | none => false
  | some target => existsPath r (resolve_symlink_target e.path target)

/-! ## A well-formed record encoder

The stream-level claims quantify over archives "containing N valid
records".  `mkRecord` produces the bytes of one record exactly per the
binary layout the decoder expects (§6 of the spec): magic, thirteen
8-character zero-padded lowercase-hex fields, NUL-terminated name, padding
to 4-byte alignment, content, padding.  It is a statement-side construction
(the repository only reads archives); the decoder `parse_cpio` above is the
embedding of the source. -/

/-- Lowercase hexadecimal digit byte of `d % 16`. -/
def hexDig (d : Nat) : Nat :=
  if d < 10 then 48 + d else 87 + d

/-- 8-character zero-padded lowercase hex encoding of `n % 2^32`. -/
def toHex8 (n : Nat) : List Nat :=
  [hexDig (n / 268435456 % 16), hexDig (n / 16777216 % 16),
   hexDig (n / 1048576 % 16), hexDig (n / 65536 % 16),
   hexDig (n / 4096 % 16), hexDig (n / 256 % 16),
   hexDig (n / 16 % 16), hexDig (n % 16)]

/-- The data of one archive record used to build test streams. -/
structure RecSpec where
  name : List Nat
  mode : Nat
  uid : Nat
  gid : Nat
  nlink : Nat
  mtime : Nat
  dev_major : Nat
  dev_minor : Nat
  rdev_major : Nat
  rdev_minor : Nat
  content : List Nat
  deriving DecidableEq, Repr

/-- The 110 header bytes of a record (newc layout; `ino` and `check` are
encoded as zero — the decoder never reads them). -/
def mkHeader (r : RecSpec) : List Nat :=
  magicA ++ toHex8 0 ++ toHex8 r.mode ++ toHex8 r.uid ++ toHex8 r.gid ++
  toHex8 r.nlink ++ toHex8 r.mtime ++ toHex8 r.content.length ++
  toHex8 r.dev_major ++ toHex8 r.dev_minor ++ toHex8 r.rdev_major ++
  toHex8 r.rdev_minor ++ toHex8 (r.name.length + 1) ++ toHex8 0

/-- The full byte sequence of one record. -/
def mkRecord (r : RecSpec) : List Nat :=
  mkHeader r ++
    (r.name ++ [0] ++
      (zeros (pad4 (110 + (r.name.length + 1))) ++
        (r.content ++ zeros (pad4 r.content.length))))

/-- Concatenation of the record encodings of a list of records. -/
def encodeList : List RecSpec → List Nat
  | [] => []
  | r :: rs => mkRecord r ++ encodeList rs

/-- A record the decoder accepts as one non-trailer entry: the name is
valid UTF-8 (so the lossy decode is the identity), is not the trailer
sentinel, and the sizes fit in the 8-hex-digit `u32` fields. -/
def ValidRec (r : RecSpec) : Prop :=
  validUtf8 r.name = true ∧ r.name ≠ trailerBytes ∧
  r.name.length + 1 < 2 ^ 32 ∧ r.content.length < 2 ^ 32 ∧
  r.mode < 2 ^ 32 ∧ r.uid < 2 ^ 32 ∧ r.gid < 2 ^ 32 ∧ r.nlink < 2 ^ 32 ∧
  r.mtime < 2 ^ 32 ∧ r.dev_major < 2 ^ 32 ∧ r.dev_minor < 2 ^ 32 ∧
  r.rdev_major < 2 ^ 32 ∧ r.rdev_minor < 2 ^ 32

/-- The entry the decoder builds from one well-formed record. -/
def mkEntry (r : RecSpec) : CpioEntry :=
  ⟨r.name, r.content.length, r.mode, FileType.from_mode r.mode,
   if FileType.from_mode r.mode = FileType.Symlink then some (lossy r.content)
   else none,
   r.uid, r.gid, r.nlink, r.mtime, r.dev_major, r.dev_minor,
   r.rdev_major, r.rdev_minor⟩

/-- The bytes of a trailer-only archive (the canonical terminator record:
name `"TRAILER!!!"`, empty content). -/
def trailerRecord : List Nat :=
  mkRecord ⟨trailerBytes, 0, 0, 0, 1, 0, 0, 0, 0, 0, []⟩

/-! ## Basic facts about the encoder and the primitives -/

instance {ε α : Type} [DecidableEq ε] [DecidableEq α] :
    DecidableEq (Except ε α)
  | .ok a, .ok b => decidable_of_iff (a = b) (by simp)
  | .error a, .error b => decidable_of_iff (a = b) (by simp)
  | .ok _, .error _ => isFalse (by simp)
  | .error _, .ok _ => isFalse (by simp)

theorem toHex8_length (n : Nat) : (toHex8 n).length = 8 := rfl

theorem mkHeader_length (r : RecSpec) : (mkHeader r).length = 110 := rfl

theorem zeros_length (n : Nat) : (zeros n).length = n :=
  List.length_replicate n 0

theorem hexDig_lt_ascii {x : Nat} : hexDig (x % 16) < 128 := by
  unfold hexDig; split <;> omega

theorem isHexDigitByte_hexDig (x : Nat) :
    isHexDigitByte (hexDig (x % 16)) = true := by
  unfold isHexDigitByte hexDig
  split <;> simp <;> omega

theorem hexVal_hexDig (x : Nat) : hexVal (hexDig (x % 16)) = x % 16 := by
  unfold hexVal hexDig
  split_ifs <;> omega

theorem validUtf8_cons_ascii {b : Nat} (h : b < 128) (l : List Nat) :
    validUtf8 (b :: l) = validUtf8 l := by
  unfold validUtf8
  rw [validUtf8Aux]
  rw [if_pos h]

theorem validUtf8_toHex8 (n : Nat) : validUtf8 (toHex8 n) = true := by
  unfold toHex8
  rw [validUtf8_cons_ascii hexDig_lt_ascii, validUtf8_cons_ascii hexDig_lt_ascii,
      validUtf8_cons_ascii hexDig_lt_ascii, validUtf8_cons_ascii hexDig_lt_ascii,
      validUtf8_cons_ascii hexDig_lt_ascii, validUtf8_cons_ascii hexDig_lt_ascii,
      validUtf8_cons_ascii hexDig_lt_ascii, validUtf8_cons_ascii hexDig_lt_ascii]
  rfl

theorem hexDig_ne_plus (x : Nat) : hexDig (x % 16) ≠ 43 := by
  unfold hexDig; split <;> omega

theorem hexDig_ne_minus (x : Nat) : hexDig (x % 16) ≠ 45 := by
  unfold hexDig; split <;> omega

theorem fromStrRadix16_toHex8 (n : Nat) :
    fromStrRadix16 (toHex8 n) = some (n % 2 ^ 32) := by
  rw [toHex8, fromStrRadix16]
  rw [if_neg (hexDig_ne_plus _), if_neg (hexDig_ne_minus _)]
  rw [if_pos]
  · simp only [List.foldl_cons, List.foldl_nil, hexVal_hexDig]
    rw [if_pos]
    · congr 1
      omega
    · have h1 := Nat.mod_lt (n / 268435456) (show 0 < 16 by omega)
      have h2 := Nat.mod_lt (n / 16777216) (show 0 < 16 by omega)
      have h3 := Nat.mod_lt (n / 1048576) (show 0 < 16 by omega)
      have h4 := Nat.mod_lt (n / 65536) (show 0 < 16 by omega)
      have h5 := Nat.mod_lt (n / 4096) (show 0 < 16 by omega)
      have h6 := Nat.mod_lt (n / 256) (show 0 < 16 by omega)
      have h7 := Nat.mod_lt (n / 16) (show 0 < 16 by omega)
      have h8 := Nat.mod_lt n (show 0 < 16 by omega)
      omega
  · simp only [List.all_cons, List.all_nil, isHexDigitByte_hexDig,
      Bool.and_self, Bool.and_true, and_true]

theorem parseHex_toHex8 (n : Nat) :
    parseHex (toHex8 n) = Except.ok (n % 2 ^ 32) := by
  unfold parseHex
  rw [if_pos (validUtf8_toHex8 n), fromStrRadix16_toHex8]

/-- The bytes of a record after its 110-byte header. -/
def recTail (r : RecSpec) : List Nat :=
  r.name ++ [0] ++
    (zeros (pad4 (110 + (r.name.length + 1))) ++
      (r.content ++ zeros (pad4 r.content.length)))

theorem mkRecord_eq (r : RecSpec) : mkRecord r = mkHeader r ++ recTail r := rfl

theorem recTail_length (r : RecSpec) :
    (recTail r).length = (r.name.length + 1) + pad4 (110 + (r.name.length + 1)) +
      (r.content.length + pad4 r.content.length) := by
  simp [recTail, zeros, List.length_append]
  omega

theorem take110_header (r : RecSpec) (tail : List Nat) :
    (mkHeader r ++ tail).take 110 = mkHeader r := rfl

theorem drop110_header (r : RecSpec) (tail : List Nat) :
    (mkHeader r ++ tail).drop 110 = tail := rfl

theorem mkHeader_take6 (r : RecSpec) : (mkHeader r).take 6 = magicA := rfl

theorem validUtf8_magicA : validUtf8 magicA = true := rfl

theorem hdr_mode (r : RecSpec) :
    ((mkHeader r).drop 14).take 8 = toHex8 r.mode := rfl

theorem hdr_uid (r : RecSpec) :
    ((mkHeader r).drop 22).take 8 = toHex8 r.uid := rfl

theorem hdr_gid (r : RecSpec) :
    ((mkHeader r).drop 30).take 8 = toHex8 r.gid := rfl

theorem hdr_nlink (r : RecSpec) :
    ((mkHeader r).drop 38).take 8 = toHex8 r.nlink := rfl

theorem hdr_mtime (r : RecSpec) :
    ((mkHeader r).drop 46).take 8 = toHex8 r.mtime := rfl

theorem hdr_filesize (r : RecSpec) :
    ((mkHeader r).drop 54).take 8 = toHex8 r.content.length := rfl

theorem hdr_dev_major (r : RecSpec) :
    ((mkHeader r).drop 62).take 8 = toHex8 r.dev_major := rfl

theorem hdr_dev_minor (r : RecSpec) :
    ((mkHeader r).drop 70).take 8 = toHex8 r.dev_minor := rfl

theorem hdr_rdev_major (r : RecSpec) :
    ((mkHeader r).drop 78).take 8 = toHex8 r.rdev_major := rfl

theorem hdr_rdev_minor (r : RecSpec) :
    ((mkHeader r).drop 86).take 8 = toHex8 r.rdev_minor := rfl

theorem hdr_namesize (r : RecSpec) :
    ((mkHeader r).drop 94).take 8 = toHex8 (r.name.length + 1) := rfl

theorem parseHeaderFields_mkHeader (r : RecSpec) :
    parseHeaderFields (mkHeader r) =
      Except.ok ⟨r.mode % 2 ^ 32, r.uid % 2 ^ 32, r.gid % 2 ^ 32,
        r.nlink % 2 ^ 32, r.mtime % 2 ^ 32, r.content.length % 2 ^ 32,
        r.dev_major % 2 ^ 32, r.dev_minor % 2 ^ 32, r.rdev_major % 2 ^ 32,
        r.rdev_minor % 2 ^ 32, (r.name.length + 1) % 2 ^ 32⟩ := by
  simp only [parseHeaderFields, hdr_mode, hdr_uid, hdr_gid, hdr_nlink,
    hdr_mtime, hdr_filesize, hdr_dev_major, hdr_dev_minor, hdr_rdev_major,
    hdr_rdev_minor, hdr_namesize, parseHex_toHex8]
  rfl

/-- Processing one well-formed non-trailer record consumes exactly its
encoding and appends exactly the corresponding entry (the heart of the
Record Reader loop). -/
theorem parseLoop_step (r : RecSpec) (rest : List Nat) (E : List CpioEntry)
    (M : List (List Nat × Nat)) (f : Nat) (hv : ValidRec r) :
    parseLoop (f + 1) (mkRecord r ++ rest) E M =
    parseLoop f rest (E ++ [mkEntry r]) (updMap M r.name E.length) := by
  obtain ⟨hvu, hnt, hns, hcs, hm, hu, hg, hnl, hmt, hd1, hd2, hr1, hr2⟩ := hv
  have hassoc : mkRecord r ++ rest = mkHeader r ++ (recTail r ++ rest) := by
    simp [mkRecord, recTail, List.append_assoc]
  rw [hassoc, parseLoop]
  have h110 : ¬ ((mkHeader r ++ (recTail r ++ rest)).length < 110) := by
    simp [List.length_append, mkHeader_length]
  rw [if_neg h110]
  simp only [take110_header, drop110_header, mkHeader_take6, validUtf8_magicA,
    parseHeaderFields_mkHeader, Nat.mod_eq_of_lt hns, Nat.mod_eq_of_lt hcs,
    Nat.mod_eq_of_lt hm, Nat.mod_eq_of_lt hu, Nat.mod_eq_of_lt hg,
    Nat.mod_eq_of_lt hnl, Nat.mod_eq_of_lt hmt, Nat.mod_eq_of_lt hd1,
    Nat.mod_eq_of_lt hd2, Nat.mod_eq_of_lt hr1, Nat.mod_eq_of_lt hr2]
  rw [if_pos trivial]
  rw [if_neg (by simp : ¬ (magicA ≠ magicA ∧ magicA ≠ magicB))]
  have hassoc2 : recTail r ++ rest
      = (r.name ++ [0]) ++
        (zeros (pad4 (110 + (r.name.length + 1))) ++
          (r.content ++ (zeros (pad4 r.content.length) ++ rest))) := by
    simp [recTail, List.append_assoc]
  simp only [hassoc2]
  have e1 : ((r.name ++ [0]) ++
      (zeros (pad4 (110 + (r.name.length + 1))) ++
        (r.content ++ (zeros (pad4 r.content.length) ++ rest)))).take
        (r.name.length + 1) = r.name ++ [0] :=
    List.take_left' (by simp)
  have e2 : ((r.name ++ [0]) ++
      (zeros (pad4 (110 + (r.name.length + 1))) ++
        (r.content ++ (zeros (pad4 r.content.length) ++ rest)))).drop
        (r.name.length + 1) =
      zeros (pad4 (110 + (r.name.length + 1))) ++
        (r.content ++ (zeros (pad4 r.content.length) ++ rest)) :=
    List.drop_left' (by simp)
  have e3 : (r.name ++ [0]).take (r.name.length + 1 - 1) = r.name := by
    have h : r.name.length + 1 - 1 = r.name.length := by omega
    rw [h]
    exact List.take_left' rfl
  have e5 : (zeros (pad4 (110 + (r.name.length + 1))) ++
      (r.content ++ (zeros (pad4 r.content.length) ++ rest))).drop
        (pad4 (110 + (r.name.length + 1))) =
      r.content ++ (zeros (pad4 r.content.length) ++ rest) :=
    List.drop_left' (zeros_length _)
  have e6 : (r.content ++ (zeros (pad4 r.content.length) ++ rest)).take
      r.content.length = r.content :=
    List.take_left' rfl
  have e7 : (r.content ++ (zeros (pad4 r.content.length) ++ rest)).drop
      r.content.length = zeros (pad4 r.content.length) ++ rest :=
    List.drop_left' rfl
  have e8 : (zeros (pad4 r.content.length) ++ rest).drop
      (pad4 r.content.length) = rest :=
    List.drop_left' (zeros_length _)
  simp only [e1, e2, e3, e5, e6, e7, e8, lossy_valid hvu]
  split_ifs with h1 h2 h3 h4
  all_goals try rfl
  all_goals
    exfalso
    simp only [List.length_append, List.length_cons, List.length_nil,
      zeros_length] at *
    omega

/-! ## Loop composition over encoded record sequences -/

theorem parseLoop_short (f : Nat) (bs : List Nat) (E : List CpioEntry)
    (M : List (List Nat × Nat)) (h : bs.length < 110) :
    parseLoop (f + 1) bs E M = Except.ok ⟨E, M⟩ := by
  rw [parseLoop, if_pos h]

theorem parseLoop_nil (f : Nat) (E : List CpioEntry)
    (M : List (List Nat × Nat)) :
    parseLoop (f + 1) [] E M = Except.ok ⟨E, M⟩ :=
  parseLoop_short f [] E M (by simp)

theorem parseLoop_trailer (f : Nat) (E : List CpioEntry)
    (M : List (List Nat × Nat)) :
    parseLoop (f + 1) trailerRecord E M = Except.ok ⟨E, M⟩ := rfl

theorem mkRecord_length_pos (r : RecSpec) : 1 ≤ (mkRecord r).length := by
  rw [mkRecord_eq]
  simp [List.length_append, mkHeader_length]
  omega

theorem encodeList_length_ge (recs : List RecSpec) :
    recs.length ≤ (encodeList recs).length := by
  induction recs with
  | nil => simp [encodeList]
  | cons r rs ih =>
    have := mkRecord_length_pos r
    simp only [encodeList, List.length_append, List.length_cons]
    omega

theorem parseLoop_encodeList (recs : List RecSpec) :
    ∀ (f : Nat) (suffix : List Nat) (E : List CpioEntry)
      (M : List (List Nat × Nat)),
    (∀ r ∈ recs, ValidRec r) → recs.length ≤ f →
    ∃ M', parseLoop (f + 1) (encodeList recs ++ suffix) E M =
      parseLoop (f - recs.length + 1) suffix (E ++ recs.map mkEntry) M' := by
  induction recs with
  | nil =>
    intro f suffix E M _ _
    exact ⟨M, by simp [encodeList]⟩
  | cons r rs ih =>
    intro f suffix E M hv hf
    obtain ⟨f', rfl⟩ : ∃ f', f = f' + 1 :=
      ⟨f - 1, by simp at hf; omega⟩
    have hs : encodeList (r :: rs) ++ suffix =
        mkRecord r ++ (encodeList rs ++ suffix) := by
      simp [encodeList, List.append_assoc]
    have hstep := parseLoop_step r (encodeList rs ++ suffix) E M (f' + 1)
      (hv r (by simp))
    obtain ⟨M', hM'⟩ := ih f' suffix (E ++ [mkEntry r]) _
      (fun x hx => hv x (by simp [hx])) (by simp at hf; omega)
    refine ⟨M', ?_⟩
    rw [hs, hstep, hM']
    have harith : f' + 1 - (r :: rs).length = f' - rs.length := by
      simp only [List.length_cons]
      omega
    rw [harith]
    simp [List.append_assoc]

/-- `parse_cpio` on a stream of well-formed records followed by anything:
the records are consumed into entries. -/
theorem parse_cpio_encode (recs : List RecSpec) (suffix : List Nat)
    (hv : ∀ r ∈ recs, ValidRec r) :
    ∃ M', parse_cpio (encodeList recs ++ suffix) =
      parseLoop ((encodeList recs ++ suffix).length - recs.length + 1)
        suffix (recs.map mkEntry) M' := by
  unfold parse_cpio
  have hge : recs.length ≤ (encodeList recs ++ suffix).length := by
    have := encodeList_length_ge recs
    simp only [List.length_append]
    omega
  obtain ⟨M', h⟩ := parseLoop_encodeList recs
    ((encodeList recs ++ suffix).length) suffix [] [] hv hge
  exact ⟨M', by simpa using h⟩

instance (r : RecSpec) : Decidable (ValidRec r) := by
  unfold ValidRec
  infer_instance

/-- A sample regular-file record (`path "a"`, mode `0o100644`, 2 content
bytes). -/
def exRec : RecSpec := ⟨ascii "a", 0o100644, 0, 0, 1, 0, 0, 0, 0, 0, ascii "hi"⟩

/-- A sample record whose path is the root pseudo-entry `"/"` (normalizes
to the empty string). -/
def exRoot : RecSpec := ⟨ascii "/", 0o040755, 0, 0, 1, 0, 0, 0, 0, 0, []⟩

/-- A sample symlink record at `a/b/link` with target `../c`. -/
def exLink : RecSpec :=
  ⟨ascii "a/b/link", 0o120777, 0, 0, 1, 0, 0, 0, 0, 0, ascii "../c"⟩

/-- A sample regular record at `a/c` (the target of `exLink`). -/
def exTargetRec : RecSpec := ⟨ascii "a/c", 0o100644, 0, 0, 1, 0, 0, 0, 0, 0, []⟩

/-! ## Claim C1 -/

/-- C1, counterexample.  A stream consisting of exactly one well-formed
record and nothing else is exhausted exactly at a record boundary before
any trailer has been seen; the claim says the decode must fail with an
unexpected-end-of-stream error, but `parse_cpio` *succeeds*, returning the
index built so far (the header `read_exact` hitting `UnexpectedEof` is a
`break`, not an error, at `src/cpio.rs:179`). -/
theorem eof_at_record_boundary_counterexample :
    parse_cpio (mkRecord exRec) =
      Except.ok ⟨[mkEntry exRec], [(ascii "a", 0)]⟩ := by
  decide

/-- C1, amended.  If the byte stream is exhausted exactly at a record
boundary (zero bytes available where a 110-byte header is expected, no
trailer seen), the decode *succeeds* and returns the index of the entries
decoded so far: end-of-file at a header boundary is treated as
end-of-archive, not as an error. -/
theorem eof_at_record_boundary_returns_partial_index
    (recs : List RecSpec) (hv : ∀ r ∈ recs, ValidRec r) :
    ∃ idx, parse_cpio (encodeList recs) = Except.ok idx ∧
      idx.entries = recs.map mkEntry := by
  obtain ⟨M', h⟩ := parse_cpio_encode recs [] hv
  simp only [List.append_nil] at h
  exact ⟨⟨recs.map mkEntry, M'⟩, by rw [h, parseLoop_nil], rfl⟩

theorem eof_at_record_boundary_returns_partial_index_witness :
    ∃ idx, parse_cpio (encodeList [exRec]) = Except.ok idx ∧
      idx.entries = [exRec].map mkEntry :=
  eof_at_record_boundary_returns_partial_index [exRec] (by decide)

/-! ## Claim C5 -/

/-- C5.  After a successful decode of a stream of `N` well-formed
non-trailer records followed by the trailer record, `entries()` has length
exactly `N`; and a stream containing only a single trailer record yields a
successfully constructed empty index, not an error. -/
theorem decode_entry_count :
    (∀ recs : List RecSpec, (∀ r ∈ recs, ValidRec r) →
      ∃ idx, parse_cpio (encodeList recs ++ trailerRecord) = Except.ok idx ∧
        idx.entries.length = recs.length ∧ idx.entries = recs.map mkEntry) ∧
    parse_cpio trailerRecord = Except.ok ⟨[], []⟩ := by
  constructor
  · intro recs hv
    obtain ⟨M', h⟩ := parse_cpio_encode recs trailerRecord hv
    refine ⟨⟨recs.map mkEntry, M'⟩, ?_, by simp, rfl⟩
    rw [h, parseLoop_trailer]
  · decide

theorem decode_entry_count_witness :
    (∃ idx, parse_cpio (encodeList [exRec] ++ trailerRecord) = Except.ok idx ∧
      idx.entries.length = [exRec].length ∧
      idx.entries = [exRec].map mkEntry) ∧
    parse_cpio trailerRecord = Except.ok ⟨[], []⟩ :=
  ⟨decode_entry_count.1 [exRec] (by decide), decode_entry_count.2⟩

/-! ## Claim C6 -/

/-- C6.  If the first 6 bytes of a record header are not one of the magic
strings `"070701"` / `"070702"`, the decode fails immediately with an
`InvalidFormat` error (whether or not the remaining header bytes would
parse): when the 6 bytes are valid UTF-8 the bad-magic error is raised,
otherwise the not-UTF-8 `InvalidFormat` error — in both cases the error
code is `InvalidFormat` and no index is returned. -/
theorem bad_magic_invalid_format (bs : List Nat) (hlen : 110 ≤ bs.length)
    (hA : bs.take 6 ≠ magicA) (hB : bs.take 6 ≠ magicB) :
    ∃ e, parse_cpio bs = Except.error e ∧
      e.code = ErrorCode.InvalidFormat := by
  unfold parse_cpio
  rw [parseLoop]
  rw [if_neg (show ¬ bs.length < 110 by omega)]
  have ht : (bs.take 110).take 6 = bs.take 6 := by
    rw [List.take_take]
    norm_num
  simp only [ht]
  by_cases hu : validUtf8 (bs.take 6) = true
  · refine ⟨FsdbgError.invalid_format (ErrMsg.badMagic (bs.take 6)), ?_, rfl⟩
    rw [if_pos hu, if_pos ⟨hA, hB⟩]
  · refine ⟨FsdbgError.invalid_format ErrMsg.headerNotUtf8, ?_, rfl⟩
    rw [if_neg hu]

theorem bad_magic_invalid_format_witness :
    ∃ e, parse_cpio (ascii "XXXXXX" ++ zeros 104) = Except.error e ∧
      e.code = ErrorCode.InvalidFormat :=
  bad_magic_invalid_format (ascii "XXXXXX" ++ zeros 104)
    (by decide) (by decide) (by decide)

/-! ## Claim C7 -/

/-- C7.  For every length `L`, the padding `pad4 L = (4 - L % 4) % 4`
computed by the Record Reader satisfies `(L + pad4 L) % 4 = 0` and
`pad4 L < 4` (and `0 ≤ pad4 L` trivially, `pad4 L` being a natural
number); in particular this holds for the header-plus-name length
`110 + namesize` and for the content length `filesize`, the two instances
the decoder computes. -/
theorem pad4_alignment :
    (∀ L : Nat, (L + pad4 L) % 4 = 0 ∧ pad4 L < 4) ∧
    (∀ namesize : Nat,
      (110 + namesize + pad4 (110 + namesize)) % 4 = 0 ∧
        pad4 (110 + namesize) < 4) ∧
    (∀ filesize : Nat,
      (filesize + pad4 filesize) % 4 = 0 ∧ pad4 filesize < 4) := by
  refine ⟨fun L => ?_, fun ns => ?_, fun fs => ?_⟩ <;> (unfold pad4; omega)

/-! ## Claim C10 -/

/-- C10.  For every entry whose `link_target` is `None` (every non-symlink
entry), `symlink_target_exists` returns `false`; being a total `Bool`
function it neither fails nor signals an error for such an entry. -/
theorem no_link_target_returns_false (r : CpioReader) (e : CpioEntry)
    (h : e.link_target = none) : symlink_target_exists r e = false := by
  unfold symlink_target_exists
  rw [h]

theorem no_link_target_returns_false_witness :
    symlink_target_exists ⟨[], []⟩ (mkEntry exRec) = false :=
  no_link_target_returns_false ⟨[], []⟩ (mkEntry exRec) (by decide)

end Fsdbg
